import Mathlib

/-!
Shallow embedding of the go-distributed-storage repository: the cipher
contract (§4.1 of the design document; the `BasicCrypto` implementation is
absent from the snapshot, only the `Cipher` interface in src/cipher.go is
present, so the cipher is modelled from the spec), the path builder and
local store (src/storage.go, src/unnamed/part_000), the file server
(src/server.go) and the framed decoder / TCP read loop
(src/p2p/encoder.go, src/unnamed/part_012).

Bytes are `List Nat` with values below 256 where it matters; the
filesystem is a map from full paths (lists of characters) to byte
sequences; randomness (the per-blob IV) is passed explicitly; fallible
operations return `Except Err`.
-/

/-- Error kinds of the embedding. -/
inductive Err where
  | badKey
  | notExist
  | sendErr
  | readErr
  deriving Repr, DecidableEq

/-- Byte sequences. -/
abbrev Bytes := List Nat

/-- User-supplied keys are byte sequences (Go strings). -/
abbrev Key := Bytes

/-- Valid AES key lengths per spec §4.1: 16, 24 or 32 bytes. -/
def keyOk (k : Bytes) : Bool :=
  k.length == 16 || k.length == 24 || k.length == 32

/-- Big-endian byte decomposition into `w` bytes. -/
def toBytesBE (w n : Nat) : Bytes :=
  (List.range w).map (fun i => n / 256 ^ (w - 1 - i) % 256)

/-- Interpret a byte sequence as a big-endian natural number. -/
def fromBytesBE (bs : Bytes) : Nat :=
  bs.foldl (fun a b => a * 256 + b) 0

/-- Modelled from the spec: the CTR counter block number `j` for a given IV.
Spec §4.1: the counter starts at the IV value and increments by one per
16-byte block, big-endian (the AES-CTR core `BasicCrypto` is not in the
snapshot). -/
def counterBlock (iv : Bytes) (j : Nat) : Bytes :=
  toBytesBE 16 ((fromBytesBE iv + j) % 2 ^ 128)

/-- Modelled from the spec: byte `i` of the AES-CTR keystream, for an
abstract AES block function `E` (the AES core is Go library code outside
the snapshot, so it is a parameter of the model). -/
def ksByte (E : Bytes → Bytes → Bytes) (k iv : Bytes) (i : Nat) : Nat :=
  (E k (counterBlock iv (i / 16))).getD (i % 16) 0

/-- The first `n` bytes of the AES-CTR keystream. -/
def keystream (E : Bytes → Bytes → Bytes) (k iv : Bytes) (n : Nat) : Bytes :=
  (List.range n).map (ksByte E k iv)

/-- XOR a byte sequence against the keystream: the shared core of CTR
encryption and decryption. -/
def ctrXor (E : Bytes → Bytes → Bytes) (k iv : Bytes) (bs : Bytes) : Bytes :=
  List.zipWith Nat.xor bs (keystream E k iv bs.length)

/-- Modelled from the spec: `BasicCrypto.Encrypt` (absent from the
snapshot; spec §4.1). It writes the random 16-byte IV (passed explicitly
here) followed by the AES-CTR ciphertext, and fails with `ErrBadKey` on a
key that is not 16, 24 or 32 bytes. The returned byte count is the
ciphertext length excluding the IV, the convention pinned by spec §4.7
("Broadcasts StoreFile{key, size = plaintext + 16}") and the comment on
`Size: 16 + size` in `FileServer.Store` (src/server.go). -/
def Encrypt (E : Bytes → Bytes → Bytes) (k iv src : Bytes) :
    Except Err (Bytes × Nat) :=
  if keyOk k then .ok (iv ++ ctrXor E k iv src, src.length)
  else .error .badKey

/-- Modelled from the spec: `BasicCrypto.Decrypt` (absent from the
snapshot; spec §4.1). It reads a 16-byte IV from the source and writes the
AES-CTR plaintext; a source shorter than 16 bytes fails the IV read. -/
def Decrypt (E : Bytes → Bytes → Bytes) (k src : Bytes) :
    Except Err (Bytes × Nat) :=
  if keyOk k then
    if src.length < 16 then .error .readErr
    else .ok (ctrXor E k (src.take 16) (src.drop 16), src.length - 16)
  else .error .badKey

theorem length_keystream (E : Bytes → Bytes → Bytes) (k iv : Bytes) (n : Nat) :
    (keystream E k iv n).length = n := by
  simp [keystream]

theorem length_ctrXor (E : Bytes → Bytes → Bytes) (k iv bs : Bytes) :
    (ctrXor E k iv bs).length = bs.length := by
  simp [ctrXor, length_keystream]

theorem zipWith_xor_cancel (l : List Nat) : ∀ ks : List Nat,
    l.length ≤ ks.length →
    List.zipWith Nat.xor (List.zipWith Nat.xor l ks) ks = l := by
  induction l with
  | nil => intro ks _; simp
  | cons a l ih =>
    intro ks h
    cases ks with
    | nil => simp at h
    | cons b ks =>
      simp only [List.zipWith_cons_cons]
      rw [ih ks (by simpa using h)]
      have hx : Nat.xor (Nat.xor a b) b = a := Nat.xor_cancel_right b a
      rw [hx]

/-- XORing against the same keystream twice is the identity. -/
theorem ctrXor_ctrXor (E : Bytes → Bytes → Bytes) (k iv bs : Bytes) :
    ctrXor E k iv (ctrXor E k iv bs) = bs := by
  have hlen : (ctrXor E k iv bs).length = bs.length := length_ctrXor E k iv bs
  show List.zipWith Nat.xor (ctrXor E k iv bs)
      (keystream E k iv (ctrXor E k iv bs).length) = bs
  rw [hlen]
  exact zipWith_xor_cancel bs (keystream E k iv bs.length)
    (by rw [length_keystream])

/-! ## Path builder and local store (src/storage.go, src/unnamed/part_000) -/

/-- A file identifier: relative directory path and basename
(source `FileIdentifier`). -/
structure FileIdentifier where
  PathName : List Char
  FileName : List Char
  deriving Repr, DecidableEq

/-- Source `FileIdentifier.BuildFilePath`: `PathName + "/" + FileName`. -/
def FileIdentifier.BuildFilePath (f : FileIdentifier) : List Char :=
  f.PathName ++ '/' :: f.FileName

/-- The sixteen lowercase hex digits used by `hex.EncodeToString`
(Go's hextable). -/
def hexDigits : List Char :=
  "0123456789abcdef".toList

/-- One hex digit character. -/
def hexDigit (n : Nat) : Char :=
  hexDigits.getD n '0'

/-- `hex.EncodeToString`: two lowercase hex characters per byte, high
nibble first. -/
def hexEncode : Bytes → List Char
  | [] => []
  | b :: bs => hexDigit (b / 16) :: hexDigit (b % 16) :: hexEncode bs

/-- Source `segmentSize := 6` in `HashPathBuilder`. -/
def segmentSize : Nat := 6

/-- Go `strings.Join` with separator `/`. -/
def joinSlash : List (List Char) → List Char
  | [] => []
  | [s] => s
  | s :: rest => s ++ '/' :: joinSlash rest

/-- The segment list computed inside `HashPathBuilder`:
`numSegments = len(hashStr) / segmentSize` segments, segment `i` being
`hashStr[i*6 : i*6+6]`. -/
def hashSegments (hashStr : List Char) : List (List Char) :=
  (List.range (hashStr.length / segmentSize)).map
    (fun i => (hashStr.drop (i * segmentSize)).take segmentSize)

/-- Source `HashPathBuilder` (src/unnamed/part_000): SHA-1 the key, hex
encode, split into 6-character segments joined by `/`; the file name is
the full hex digest. The SHA-1 compression itself is Go standard-library
code outside the repository, so it is a parameter `sha1` of the
embedding (a function from the key bytes to the 20 digest bytes). -/
def HashPathBuilder (sha1 : Bytes → Bytes) (key : Key) : FileIdentifier :=
  let hashStr := hexEncode (sha1 key)
  { PathName := joinSlash (hashSegments hashStr), FileName := hashStr }

/-- Source `DefaultPathBuilder`: both fields equal the key. -/
def DefaultPathBuilder (key : List Char) : FileIdentifier :=
  { PathName := key, FileName := key }

/-- Storage configuration (source `StoreOPT`): a path transform function
and a root directory. -/
structure StoreOPT where
  PathTranformFunc : Key → FileIdentifier
  RootDir : List Char

/-- Root sanitization in `NewStorage`: every `:` replaced by `_`. -/
def sanitizeRoot (root : List Char) : List Char :=
  root.map (fun c => if c = ':' then '_' else c)

/-- The filesystem: full path to stored byte sequence. -/
def Fs := List Char → Option Bytes

/-- Create/truncate a file at a path (os.Create + copy). -/
def fsWrite (fs : Fs) (p : List Char) (d : Bytes) : Fs :=
  fun q => if q = p then some d else fs q

/-- Source `Storage.prependTheRoot` composed with `BuildFilePath`: the
full on-disk location of a key. -/
def storagePath (cfg : StoreOPT) (key : Key) : List Char :=
  cfg.RootDir ++ '/' :: (cfg.PathTranformFunc key).BuildFilePath

/-- Source `Storage.HasKey`: stat the full path; true iff it exists. -/
def Storage.HasKey (cfg : StoreOPT) (fs : Fs) (key : Key) : Bool :=
  (fs (storagePath cfg key)).isSome

/-- Source `Storage.StoreFile`: plain create-truncate write of the bytes
read from the input stream; returns the byte count written. -/
def Storage.StoreFile (cfg : StoreOPT) (fs : Fs) (key : Key) (data : Bytes) :
    Fs × Nat :=
  (fsWrite fs (storagePath cfg key) data, data.length)

/-- Source `Storage.StoreFileEncrypted`: the copy into the destination
file is performed by the encrypt function; its return value is passed
through. -/
def Storage.StoreFileEncrypted (cfg : StoreOPT) (E : Bytes → Bytes → Bytes)
    (fs : Fs) (key : Key) (k iv src : Bytes) : Except Err (Fs × Nat) :=
  match Encrypt E k iv src with
  | .error e => .error e
  | .ok (out, n) => .ok (fsWrite fs (storagePath cfg key) out, n)

/-- Source `Storage.readIntoFile` / `Storage.ReadFile`: open the full
path (os.Open on a missing file fails with a not-exists error) and return
the contents and file size. -/
def Storage.ReadFile (cfg : StoreOPT) (fs : Fs) (key : Key) :
    Except Err (Bytes × Nat) :=
  match fs (storagePath cfg key) with
  | none => .error .notExist
  | some d => .ok (d, d.length)

/-- Source `Storage.ReadFileDecrypted`: open the file, decrypt into a
buffer, and return the buffer together with the original file size. -/
def Storage.ReadFileDecrypted (cfg : StoreOPT) (E : Bytes → Bytes → Bytes)
    (fs : Fs) (key : Key) (k : Bytes) : Except Err (Bytes × Nat) :=
  match fs (storagePath cfg key) with
  | none => .error .notExist
  | some d =>
    match Decrypt E k d with
    | .error e => .error e
    | .ok (plain, _) => .ok (plain, d.length)

/-! ## File server (src/server.go) -/

/-- The observable send behaviour of one peer during a broadcast: whether
the one-byte tag write succeeds and whether the payload write succeeds
(`peer.Send` returns the connection write error). -/
structure PeerSend where
  tagOk : Bool
  payloadOk : Bool
  deriving Repr, DecidableEq

/-- Source `FileServer.broadcast`: for each peer, send the
`IncomingMessage` tag byte and then the encoded message; the first failing
send makes the whole broadcast return that error at once. -/
def broadcast : List PeerSend → Except Err Unit
  | [] => .ok ()
  | p :: rest =>
    if p.tagOk then
      if p.payloadOk then broadcast rest else .error .sendErr
    else .error .sendErr

/-- Source `FileServer.Store`: tee the plaintext into a buffer while
`StoreFileEncrypted` writes the encrypted blob (first IV) to disk,
broadcast `StoreFile{key, 16 + size}`, then write the `0x02` tag followed
by a second encryption pass (second IV) of the buffered plaintext into the
fan-out writer over all peers. The result carries the new filesystem, the
`Size` field of the broadcast message, and the bytes written to the
fan-out writer (the errors of the fan-out writes are ignored by the
source, so a failing second encryption leaves only the tag byte). -/
def FileServer.Store (cfg : StoreOPT) (E : Bytes → Bytes → Bytes) (k : Bytes)
    (fs : Fs) (key : Key) (D : Bytes) (iv1 iv2 : Bytes)
    (peers : List PeerSend) : Except Err (Fs × Nat × Bytes) :=
  match Storage.StoreFileEncrypted cfg E fs key k iv1 D with
  | .error e => .error e
  | .ok (fs2, size) =>
    match broadcast peers with
    | .error e => .error e
    | .ok _ =>
      let streamBody :=
        match Encrypt E k iv2 D with
        | .ok (out, _) => out
        | .error _ => []
      .ok (fs2, 16 + size, 2 :: streamBody)

/-- One peer as seen by `FileServer.Get`: its broadcast send behaviour,
and the outcome of the little-endian length read on its connection —
`none` when the read fails or times out, `some bs` when it succeeds and
`bs` are the following `fileSize` stream bytes (the `io.LimitReader`
contents). -/
structure GetPeer where
  send : PeerSend
  reply : Option Bytes
  deriving Repr, DecidableEq

/-- The per-peer loop of `FileServer.Get`: a failed or timed-out length
read skips the peer; a successful one stores the received bytes locally
via plain `StoreFile` (the bytes are already ciphertext including IV). -/
def getLoop (cfg : StoreOPT) (fs : Fs) (key : Key) : List GetPeer → Fs
  | [] => fs
  | p :: rest =>
    match p.reply with
    | none => getLoop cfg fs key rest
    | some bs => getLoop cfg (Storage.StoreFile cfg fs key bs).1 key rest

/-- Source `FileServer.Get`: if the key is present locally, return the
decrypted reader; otherwise broadcast `GetFile{key}`, run the per-peer
length-prefixed reads, and finally return the locally stored file
decrypted. The result carries the reader contents and the filesystem
after the call. -/
def FileServer.Get (cfg : StoreOPT) (E : Bytes → Bytes → Bytes) (k : Bytes)
    (fs : Fs) (key : Key) (peers : List GetPeer) :
    Except Err (Bytes × Fs) :=
  if Storage.HasKey cfg fs key then
    match Storage.ReadFileDecrypted cfg E fs key k with
    | .error e => .error e
    | .ok (plain, _) => .ok (plain, fs)
  else
    match broadcast (peers.map GetPeer.send) with
    | .error e => .error e
    | .ok _ =>
      let fs2 := getLoop cfg fs key peers
      match Storage.ReadFileDecrypted cfg E fs2 key k with
      | .error e => .error e
      | .ok (plain, _) => .ok (plain, fs2)

/-! ## Peer registry lifecycle (src/server.go OnPeer, src/unnamed/part_012
handleConn) -/

/-- A connection-lifecycle step observable at the registry: `peerUp` is a
successful handshake followed by the `OnPeer` hook (map insert);
`readLoopExit` is the termination of the connection read loop (decode
error or close) — in the source its deferred handler only logs. -/
inductive ConnEvent where
  | peerUp (addr : String)
  | readLoopExit (addr : String)
  deriving Repr, DecidableEq

/-- Effect of one lifecycle step on the registry key set:
`OnPeer` performs `s.peers[addr] = p` (membership insert); the read-loop
exit path of `handleConn` performs no registry operation. -/
def FileServer.applyEvent (reg : List String) : ConnEvent → List String
  | .peerUp a => if a ∈ reg then reg else a :: reg
  | .readLoopExit _ => reg

/-- Fold a sequence of lifecycle steps over the registry. -/
def FileServer.applyEvents (reg : List String) (evs : List ConnEvent) :
    List String :=
  evs.foldl FileServer.applyEvent reg

/-! ## Framed decoder and TCP read loop (src/p2p/encoder.go,
src/p2p/message.go, src/unnamed/part_012) -/

/-- Source constant `IncomingMessage = 0x1`. -/
def IncomingMessage : Nat := 1

/-- Source constant `IncomingStream = 0x2`. -/
def IncomingStream : Nat := 2

/-- The RPC frame delivered by the decoder (src/p2p/message.go), without
the sender address. -/
structure RPC where
  Payload : Bytes
  Stream : Bool
  deriving Repr, DecidableEq

/-- The zero-valued frame the loop allocates each iteration. -/
def zeroRPC : RPC := { Payload := [], Stream := false }

/-- Source `DefaultDecoder.Decode` over a connection modelled as the byte
sequence `input` with read position `pos` (each `Read` returns the
available bytes up to the buffer size). Reading the one tag byte
fails at end of input, and the source then returns a nil error with the
frame untouched; a `0x02` tag yields a stream frame without further
reading; any other tag byte is followed by a read of up to 1024 payload
bytes whose failure is returned as the decode error. -/
def DefaultDecoder.Decode (input : Bytes) (pos : Nat) :
    Except Err (RPC × Nat) :=
  match input.drop pos with
  | [] => .ok (zeroRPC, pos)
  | b :: rest =>
    if b = IncomingStream then
      .ok ({ Payload := [], Stream := true }, pos + 1)
    else
      let chunk := rest.take 1024
      if chunk = [] then .error .readErr
      else .ok ({ Payload := chunk, Stream := false }, pos + 1 + chunk.length)

/-- State of one connection's read loop in `TCPTransport.handleConn`:
read position on the connection, frames published to the shared RPC
channel so far, the peer's WaitGroup counter, and whether the loop is
blocked in `wg.Wait()`. -/
structure ConnState where
  pos : Nat
  published : List RPC
  gate : Nat
  blocked : Bool
  deriving Repr, DecidableEq

/-- Initial read-loop state. -/
def connInit : ConnState := { pos := 0, published := [], gate := 0, blocked := false }

/-- Events driving one read loop: a scheduled `read` iteration, or the
consumer calling `CloseStream()` (`wg.Done()`). -/
inductive ConnEv where
  | read
  | closeStream
  deriving Repr, DecidableEq

/-- One step of the read loop of `TCPTransport.handleConn`
(src/unnamed/part_012): a blocked loop does not read; a decode error
terminates the loop (`none`); a stream frame increments the WaitGroup and
blocks without touching the channel; any other frame is sent on the
shared channel. `CloseStream` performs `wg.Done()` and unblocks. -/
def TCPTransport.step (input : Bytes) (s : ConnState) :
    ConnEv → Option ConnState
  | .closeStream => some { s with gate := s.gate - 1, blocked := false }
  | .read =>
    if s.blocked then some s
    else
      match DefaultDecoder.Decode input s.pos with
      | .error _ => none
      | .ok (rpc, pos2) =>
        if rpc.Stream then
          some { pos := pos2, published := s.published,
                 gate := s.gate + 1, blocked := true }
        else
          some { pos := pos2, published := s.published ++ [rpc],
                 gate := s.gate, blocked := s.blocked }

/-! ## Claims about the decoder and the read loop -/

/-- C4 counterexample: on input whose first byte is the `0x02` stream tag,
the read loop increments the gate and blocks, but the stream frame is NOT
placed on the shared RPC channel — the published list stays empty,
contrary to the claim that the loop "publishes that frame onto the shared
RPC channel". -/
theorem c4_stream_not_published :
    TCPTransport.step [2] connInit .read =
      some { pos := 1, published := [], gate := 1, blocked := true } ∧
    ({ Payload := [], Stream := true } : RPC) ∉
      ({ pos := 1, published := [], gate := 1,
         blocked := true } : ConnState).published := by
  decide

/-- C4 (amended): when the decoder yields a stream frame (leading byte
`0x02`), the read loop increments the per-peer gate and blocks WITHOUT
publishing the frame on the shared RPC channel; while blocked it performs
no further read (the position and published list are unchanged), and
`CloseStream` releases the gate and unblocks it. -/
theorem c4_stream_gate (input : Bytes) (s : ConnState) (rest : Bytes)
    (hb : s.blocked = false) (ht : input.drop s.pos = 2 :: rest) :
    TCPTransport.step input s .read =
      some { pos := s.pos + 1, published := s.published,
             gate := s.gate + 1, blocked := true } ∧
    TCPTransport.step input
      { pos := s.pos + 1, published := s.published,
        gate := s.gate + 1, blocked := true } .read =
      some { pos := s.pos + 1, published := s.published,
             gate := s.gate + 1, blocked := true } ∧
    TCPTransport.step input
      { pos := s.pos + 1, published := s.published,
        gate := s.gate + 1, blocked := true } .closeStream =
      some { pos := s.pos + 1, published := s.published,
             gate := s.gate, blocked := false } := by
  refine ⟨?_, ?_, ?_⟩
  · simp [TCPTransport.step, hb, DefaultDecoder.Decode, ht, IncomingStream]
  · simp [TCPTransport.step]
  · simp [TCPTransport.step]

/-- C4 witness: the amended behaviour at the concrete input `[0x02]`. -/
theorem c4_stream_gate_witness :
    TCPTransport.step [2] connInit .read =
      some { pos := 1, published := [], gate := 1, blocked := true } ∧
    TCPTransport.step [2]
      { pos := 1, published := [], gate := 1, blocked := true } .read =
      some { pos := 1, published := [], gate := 1, blocked := true } ∧
    TCPTransport.step [2]
      { pos := 1, published := [], gate := 1, blocked := true } .closeStream =
      some { pos := 1, published := [], gate := 0, blocked := false } :=
  c4_stream_gate [2] connInit [] rfl rfl

/-- C7 counterexample: a leading byte that is neither `0x01` nor `0x02`
(here `0x07`) is NOT rejected as a protocol error: the decoder treats it
exactly like `0x01` and yields a message frame. -/
theorem c7_unknown_tag_is_message :
    DefaultDecoder.Decode [7, 65] 0 =
      .ok ({ Payload := [65], Stream := false }, 2) ∧
    DefaultDecoder.Decode [1, 65] 0 =
      .ok ({ Payload := [65], Stream := false }, 2) :=
  ⟨rfl, rfl⟩

/-- C7 (amended): the decoder dispatches on the leading tag byte: `0x02`
yields a stream frame with empty payload consuming only the tag; ANY
other leading byte (not just `0x01`) yields a message frame whose payload
is the next available bytes capped at 1024 when such bytes exist, and a
read error when none follow — no leading byte is rejected as a protocol
error. -/
theorem c7_decode_cases (input : Bytes) (pos : Nat) (b : Nat) (rest : Bytes)
    (h : input.drop pos = b :: rest) :
    (b = 2 → DefaultDecoder.Decode input pos =
        .ok ({ Payload := [], Stream := true }, pos + 1)) ∧
    (b ≠ 2 → rest ≠ [] →
        DefaultDecoder.Decode input pos =
          .ok ({ Payload := rest.take 1024, Stream := false },
               pos + 1 + (rest.take 1024).length) ∧
        (rest.take 1024).length ≤ 1024) ∧
    (b ≠ 2 → rest = [] →
        DefaultDecoder.Decode input pos = .error .readErr) := by
  refine ⟨?_, ?_, ?_⟩
  · intro hb
    subst hb
    simp [DefaultDecoder.Decode, h, IncomingStream]
  · intro hb hr
    have hchunk : rest.take 1024 ≠ [] := by
      cases rest with
      | nil => exact absurd rfl hr
      | cons x xs => simp
    constructor
    · simp [DefaultDecoder.Decode, h, IncomingStream, hb, hchunk]
    · rw [List.length_take]
      exact min_le_left _ _
  · intro hb hr
    subst hr
    simp [DefaultDecoder.Decode, h, IncomingStream, hb]

/-- C7 witness: the stream case of the amended decoder behaviour at the
concrete input `[0x02]`. -/
theorem c7_decode_cases_witness :
    DefaultDecoder.Decode [2] 0 =
      .ok ({ Payload := [], Stream := true }, 1) :=
  (c7_decode_cases [2] 0 2 [] rfl).1 rfl

/-- C10: when the tag-byte read fails (the connection yields no byte,
e.g. EOF after close), `DefaultDecoder.Decode` returns a nil error with
the frame left zero-valued; the read loop therefore publishes the empty
non-stream frame on the shared channel, leaves the read position
unchanged, and the next iteration does the same again. -/
theorem c10_decode_nil_on_read_error (input : Bytes) (s : ConnState)
    (hb : s.blocked = false) (he : input.drop s.pos = []) :
    DefaultDecoder.Decode input s.pos = .ok (zeroRPC, s.pos) ∧
    TCPTransport.step input s .read =
      some { pos := s.pos, published := s.published ++ [zeroRPC],
             gate := s.gate, blocked := false } ∧
    TCPTransport.step input
      { pos := s.pos, published := s.published ++ [zeroRPC],
        gate := s.gate, blocked := false } .read =
      some { pos := s.pos,
             published := (s.published ++ [zeroRPC]) ++ [zeroRPC],
             gate := s.gate, blocked := false } ∧
    zeroRPC.Stream = false := by
  have hdec : DefaultDecoder.Decode input s.pos = .ok (zeroRPC, s.pos) := by
    simp [DefaultDecoder.Decode, he]
  refine ⟨hdec, ?_, ?_, rfl⟩
  · simp [TCPTransport.step, hb, hdec, zeroRPC]
  · simp [TCPTransport.step, hdec, zeroRPC]

/-- C10 witness: the repeated empty-frame publication at the concrete
closed connection (empty input) from the initial state. -/
theorem c10_decode_nil_on_read_error_witness :
    DefaultDecoder.Decode [] 0 = .ok (zeroRPC, 0) ∧
    TCPTransport.step [] connInit .read =
      some { pos := 0, published := [zeroRPC], gate := 0, blocked := false } ∧
    TCPTransport.step []
      { pos := 0, published := [zeroRPC], gate := 0, blocked := false } .read =
      some { pos := 0, published := [zeroRPC, zeroRPC],
             gate := 0, blocked := false } ∧
    zeroRPC.Stream = false :=
  c10_decode_nil_on_read_error [] connInit rfl rfl

/-! ## Claims about the peer registry and the broadcast -/

/-- C5 counterexample: after a peer's read loop terminates
(`readLoopExit`), its record is still in the registry — `handleConn`'s
deferred handler only logs, and no code path deletes from `s.peers`,
contrary to the claim that the record is removed before the connection
object is discarded. -/
theorem c5_peer_never_removed :
    FileServer.applyEvents []
      [ConnEvent.peerUp "a", ConnEvent.readLoopExit "a"] = ["a"] ∧
    "a" ∈ FileServer.applyEvents []
      [ConnEvent.peerUp "a", ConnEvent.readLoopExit "a"] := by
  constructor
  · rfl
  · simp [FileServer.applyEvents, FileServer.applyEvent]

/-- C5 (amended): registry records are inserted by `OnPeer` on connection
establishment and never removed: a read-loop termination leaves the
registry unchanged (so the registry may keep records whose connections
are closed), and membership is monotone under every lifecycle step. -/
theorem c5_registry_insert_only (reg : List String) (a b : String)
    (e : ConnEvent) (hb : b ∈ reg) :
    FileServer.applyEvent reg (.readLoopExit a) = reg ∧
    a ∈ FileServer.applyEvent reg (.peerUp a) ∧
    b ∈ FileServer.applyEvent reg e := by
  refine ⟨rfl, ?_, ?_⟩
  · by_cases h : a ∈ reg <;> simp [FileServer.applyEvent, h]
  · cases e with
    | peerUp c =>
      by_cases h : c ∈ reg <;> simp [FileServer.applyEvent, h, hb]
    | readLoopExit c => simpa [FileServer.applyEvent] using hb

/-- C5 witness: the amended behaviour at a concrete registry. -/
theorem c5_registry_insert_only_witness :
    FileServer.applyEvent ["b"] (.readLoopExit "a") = ["b"] ∧
    "a" ∈ FileServer.applyEvent ["b"] (.peerUp "a") ∧
    "b" ∈ FileServer.applyEvent ["b"] (.readLoopExit "b") :=
  c5_registry_insert_only ["b"] "a" "b" (.readLoopExit "b")
    (List.mem_singleton.mpr rfl)

/-- C6 counterexample: with two peers of which only the first fails,
`broadcast` returns an error even though the second peer's sends would
succeed (alone, broadcasting to it succeeds) — contrary to the claim that
the call fails only if sending fails for every peer. -/
theorem c6_first_error_aborts :
    broadcast [{ tagOk := false, payloadOk := true },
               { tagOk := true, payloadOk := true }] = .error .sendErr ∧
    broadcast [{ tagOk := true, payloadOk := true }] = .ok () :=
  ⟨rfl, rfl⟩

/-- C6 (amended): `broadcast` aborts on the first failing per-peer send
and returns that error (it succeeds iff every send to every peer
succeeds), and the enclosing `Store` forwards the broadcast error to its
caller. -/
theorem c6_broadcast_all_or_error (ps : List PeerSend) (cfg : StoreOPT)
    (E : Bytes → Bytes → Bytes) (k : Bytes) (fs : Fs) (key : Key)
    (D iv1 iv2 : Bytes) (e : Err) (hk : keyOk k = true) :
    (broadcast ps = .ok () ↔
      ∀ p ∈ ps, p.tagOk = true ∧ p.payloadOk = true) ∧
    (broadcast ps = .error e →
      FileServer.Store cfg E k fs key D iv1 iv2 ps = .error e) := by
  constructor
  · induction ps with
    | nil => simp [broadcast]
    | cons p rest ih =>
      cases hp : p.tagOk <;> cases hq : p.payloadOk <;>
        simp [broadcast, hp, hq, ih]
  · intro hb
    simp [FileServer.Store, Storage.StoreFileEncrypted, Encrypt, hk, hb]

/-! ## Claims about the cipher and the store/get round trip -/

/-- C3: for every AES block function, decrypting the output of encryption
with the same valid (16/24/32-byte) key yields the plaintext back, and
every key of another length makes both `Encrypt` and `Decrypt` fail with
the bad-key error. -/
theorem c3_cipher_roundtrip (E : Bytes → Bytes → Bytes) (k iv D : Bytes)
    (hk : keyOk k = true) (hiv : iv.length = 16) :
    (∃ ct n, Encrypt E k iv D = .ok (ct, n) ∧
       ∃ m, Decrypt E k ct = .ok (D, m)) ∧
    (∀ k2 src, keyOk k2 = false →
       Encrypt E k2 iv D = .error .badKey ∧
       Decrypt E k2 src = .error .badKey) := by
  constructor
  · refine ⟨iv ++ ctrXor E k iv D, D.length, ?_, D.length, ?_⟩
    · simp [Encrypt, hk]
    · have hlen : (iv ++ ctrXor E k iv D).length = 16 + D.length := by
        simp [length_ctrXor, hiv]
      have htake : (iv ++ ctrXor E k iv D).take 16 = iv := by
        rw [← hiv]; exact List.take_left iv _
      have hdrop : (iv ++ ctrXor E k iv D).drop 16 = ctrXor E k iv D := by
        rw [← hiv]; exact List.drop_left iv _
      simp [Decrypt, hk, hlen, htake, hdrop, ctrXor_ctrXor]
  · intro k2 src hk2
    exact ⟨by simp [Encrypt, hk2], by simp [Decrypt, hk2]⟩

/-- Concrete block function for witnesses (the round-trip laws hold for
every block function). -/
def EW : Bytes → Bytes → Bytes := fun _ _ => List.replicate 16 0

/-- Concrete 16-byte key for witnesses. -/
def kW : Bytes := List.replicate 16 0

/-- Concrete 16-byte IVs for witnesses. -/
def ivW : Bytes := List.replicate 16 1

def ivW2 : Bytes := List.replicate 16 2

/-- Concrete storage configuration for witnesses. -/
def cfgW : StoreOPT :=
  { PathTranformFunc := fun _ => { PathName := ['p'], FileName := ['f'] },
    RootDir := ['r'] }

/-- The empty filesystem. -/
def fsEmpty : Fs := fun _ => none

/-- C3 witness: the round trip at a concrete block function, key, IV and
plaintext, and the bad-key failures. -/
theorem c3_cipher_roundtrip_witness :
    (∃ ct n, Encrypt EW kW ivW [3, 1, 4] = .ok (ct, n) ∧
       ∃ m, Decrypt EW kW ct = .ok ([3, 1, 4], m)) ∧
    (∀ k2 src, keyOk k2 = false →
       Encrypt EW k2 ivW [3, 1, 4] = .error .badKey ∧
       Decrypt EW k2 src = .error .badKey) :=
  c3_cipher_roundtrip EW kW ivW [3, 1, 4] (by decide) (by decide)

/-- C1: `Store(key, D)` followed by a local `Get(key)` (no peers
involved in the Get) returns a reader whose contents are exactly `D`:
the encrypted write and the decrypting read compose to the identity. -/
theorem c1_store_then_get (cfg : StoreOPT) (E : Bytes → Bytes → Bytes)
    (k : Bytes) (fs : Fs) (key : Key) (D : Bytes) (iv1 iv2 : Bytes)
    (peers : List PeerSend) (hk : keyOk k = true) (h1 : iv1.length = 16)
    (hb : broadcast peers = .ok ()) :
    ∃ fs2 msgSize stream,
      FileServer.Store cfg E k fs key D iv1 iv2 peers =
        .ok (fs2, msgSize, stream) ∧
      FileServer.Get cfg E k fs2 key [] = .ok (D, fs2) := by
  refine ⟨fsWrite fs (storagePath cfg key) (iv1 ++ ctrXor E k iv1 D),
    16 + D.length, 2 :: (iv2 ++ ctrXor E k iv2 D), ?_, ?_⟩
  · simp [FileServer.Store, Storage.StoreFileEncrypted, Encrypt, hk, hb]
  · have hfs : fsWrite fs (storagePath cfg key) (iv1 ++ ctrXor E k iv1 D)
        (storagePath cfg key) = some (iv1 ++ ctrXor E k iv1 D) := by
      simp [fsWrite]
    have hhas : Storage.HasKey cfg
        (fsWrite fs (storagePath cfg key) (iv1 ++ ctrXor E k iv1 D)) key
        = true := by
      simp [Storage.HasKey, hfs]
    have hlen : (iv1 ++ ctrXor E k iv1 D).length = 16 + D.length := by
      simp [length_ctrXor, h1]
    have htake : (iv1 ++ ctrXor E k iv1 D).take 16 = iv1 := by
      rw [← h1]; exact List.take_left iv1 _
    have hdrop : (iv1 ++ ctrXor E k iv1 D).drop 16 = ctrXor E k iv1 D := by
      rw [← h1]; exact List.drop_left iv1 _
    simp [FileServer.Get, hhas, Storage.ReadFileDecrypted, hfs, Decrypt,
      hk, hlen, htake, hdrop, ctrXor_ctrXor]

/-- C1 witness: the store/get round trip at concrete inputs. -/
theorem c1_store_then_get_witness :
    ∃ fs2 msgSize stream,
      FileServer.Store cfgW EW kW fsEmpty [5] [9, 9] ivW ivW2 [] =
        .ok (fs2, msgSize, stream) ∧
      FileServer.Get cfgW EW kW fs2 [5] [] = .ok ([9, 9], fs2) :=
  c1_store_then_get cfgW EW kW fsEmpty [5] [9, 9] ivW ivW2 []
    (by decide) (by decide) rfl

/-- C2: the `Size` field of the broadcast `StoreFile` message equals
16 plus the plaintext length, and this is exactly the number of bytes
written after the `0x02` stream tag into the fan-out writer, so a
receiver reading exactly `Size` bytes obtains the complete encrypted
blob. -/
theorem c2_store_size_matches_stream (cfg : StoreOPT)
    (E : Bytes → Bytes → Bytes) (k : Bytes) (fs : Fs) (key : Key)
    (D : Bytes) (iv1 iv2 : Bytes) (peers : List PeerSend)
    (hk : keyOk k = true) (h2 : iv2.length = 16)
    (hb : broadcast peers = .ok ()) :
    ∃ fs2 body,
      FileServer.Store cfg E k fs key D iv1 iv2 peers =
        .ok (fs2, 16 + D.length, 2 :: body) ∧
      body.length = 16 + D.length := by
  refine ⟨fsWrite fs (storagePath cfg key) (iv1 ++ ctrXor E k iv1 D),
    iv2 ++ ctrXor E k iv2 D, ?_, ?_⟩
  · simp [FileServer.Store, Storage.StoreFileEncrypted, Encrypt, hk, hb]
  · simp [length_ctrXor, h2]

/-- C2 witness: the size/stream agreement at concrete inputs. -/
theorem c2_store_size_matches_stream_witness :
    ∃ fs2 body,
      FileServer.Store cfgW EW kW fsEmpty [5] [9, 9, 9] ivW ivW2 [] =
        .ok (fs2, 16 + 3, 2 :: body) ∧
      body.length = 16 + 3 :=
  c2_store_size_matches_stream cfgW EW kW fsEmpty [5] [9, 9, 9] ivW ivW2 []
    (by decide) (by decide) rfl

/-- All peers skipped means the per-peer loop of `Get` leaves the
filesystem unchanged. -/
theorem getLoop_all_none (cfg : StoreOPT) (fs : Fs) (key : Key) :
    ∀ peers : List GetPeer, (∀ p ∈ peers, p.reply = none) →
    getLoop cfg fs key peers = fs := by
  intro peers
  induction peers with
  | nil => intro _; rfl
  | cons p rest ih =>
    intro h
    have hp : p.reply = none := h p (List.mem_cons_self p rest)
    simp [getLoop, hp]
    exact ih (fun q hq => h q (List.mem_cons_of_mem p hq))

/-- C8: `Get` of a key absent locally, when every per-peer length read
fails or times out, returns the non-nil not-found error (the not-exists
error of the final local open). -/
theorem c8_get_missing_returns_not_found (cfg : StoreOPT)
    (E : Bytes → Bytes → Bytes) (k : Bytes) (fs : Fs) (key : Key)
    (peers : List GetPeer)
    (hnot : Storage.HasKey cfg fs key = false)
    (hall : ∀ p ∈ peers, p.reply = none)
    (hb : broadcast (peers.map GetPeer.send) = .ok ()) :
    FileServer.Get cfg E k fs key peers = .error .notExist := by
  have hno : fs (storagePath cfg key) = none := by
    cases h : fs (storagePath cfg key) with
    | none => rfl
    | some d => simp [Storage.HasKey, h] at hnot
  have hloop : getLoop cfg fs key peers = fs := getLoop_all_none cfg fs key peers hall
  simp [FileServer.Get, hnot, hb, hloop, Storage.ReadFileDecrypted, hno]

/-- C8 witness: the not-found error at a concrete empty filesystem and a
single silent peer. -/
theorem c8_get_missing_returns_not_found_witness :
    FileServer.Get cfgW EW kW fsEmpty [5]
      [{ send := { tagOk := true, payloadOk := true }, reply := none }] =
      .error .notExist :=
  c8_get_missing_returns_not_found cfgW EW kW fsEmpty [5]
    [{ send := { tagOk := true, payloadOk := true }, reply := none }]
    (by decide) (by decide) rfl

/-! ## Claims about the hash path builder -/

theorem length_hexEncode (bs : Bytes) :
    (hexEncode bs).length = 2 * bs.length := by
  induction bs with
  | nil => rfl
  | cons b bs ih => simp [hexEncode, ih]; omega

theorem hexDigit_mem (n : Nat) (h : n < 16) : hexDigit n ∈ hexDigits := by
  interval_cases n <;> decide

theorem mem_hexEncode (bs : Bytes) (hb : ∀ b ∈ bs, b < 256) :
    ∀ c ∈ hexEncode bs, c ∈ hexDigits := by
  induction bs with
  | nil => intro c hc; simp [hexEncode] at hc
  | cons b bs ih =>
    intro c hc
    have hblt : b < 256 := hb b (List.mem_cons_self b bs)
    simp only [hexEncode, List.mem_cons] at hc
    rcases hc with h1 | h2 | h3
    · subst h1; exact hexDigit_mem _ (by omega)
    · subst h2; exact hexDigit_mem _ (Nat.mod_lt _ (by norm_num))
    · exact ih (fun x hx => hb x (List.mem_cons_of_mem b hx)) c h3

theorem mem_joinSlash : ∀ (L : List (List Char)) (c : Char),
    c ∈ joinSlash L → (∃ s ∈ L, c ∈ s) ∨ c = '/'
  | [], c, hc => by simp [joinSlash] at hc
  | [s], c, hc => .inl ⟨s, by simp, hc⟩
  | s :: t :: rest, c, hc => by
    simp only [joinSlash] at hc
    rcases List.mem_append.mp hc with h | h
    · exact .inl ⟨s, by simp, h⟩
    · rcases List.mem_cons.mp h with h | h
      · exact .inr h
      · rcases mem_joinSlash (t :: rest) c h with ⟨u, hu, hcu⟩ | h
        · exact .inl ⟨u, List.mem_cons_of_mem s hu, hcu⟩
        · exact .inr h

theorem join_segments (l : List Char) (kk : Nat) : ∀ m : Nat,
    (((List.range m).map fun i => (l.drop (i * kk)).take kk)).flatten =
      l.take (m * kk) := by
  intro m
  induction m with
  | zero => simp
  | succ m ih =>
    rw [List.range_succ, List.map_append, List.flatten_append, ih]
    simp only [List.map_cons, List.map_nil, List.flatten_cons, List.flatten_nil,
      List.append_nil]
    rw [Nat.succ_mul, List.take_add]

/-- C9: the hash path builder is a pure function of the key (equal keys
give equal identifiers); the full identifier contains only hex characters
and `/`; the file name is the full 40-character hex digest; the path name
is the join of exactly six segments, each six non-empty hex characters,
and those segments cover exactly the first 36 digest characters. -/
theorem c9_hash_path_builder (sha1 : Bytes → Bytes) (key : Key)
    (h20 : (sha1 key).length = 20) (hby : ∀ b ∈ sha1 key, b < 256) :
    (∀ key2, key2 = key →
        HashPathBuilder sha1 key2 = HashPathBuilder sha1 key) ∧
    (HashPathBuilder sha1 key).FileName = hexEncode (sha1 key) ∧
    (HashPathBuilder sha1 key).FileName.length = 40 ∧
    (∀ c ∈ (HashPathBuilder sha1 key).FileName, c ∈ hexDigits) ∧
    (HashPathBuilder sha1 key).PathName =
      joinSlash (hashSegments (hexEncode (sha1 key))) ∧
    (hashSegments (hexEncode (sha1 key))).length = 6 ∧
    (∀ s ∈ hashSegments (hexEncode (sha1 key)),
        s.length = 6 ∧ s ≠ [] ∧ ∀ c ∈ s, c ∈ hexDigits) ∧
    (hashSegments (hexEncode (sha1 key))).flatten =
      (HashPathBuilder sha1 key).FileName.take 36 ∧
    (∀ c ∈ (HashPathBuilder sha1 key).BuildFilePath,
        c ∈ hexDigits ∨ c = '/') := by
  have hlen40 : (hexEncode (sha1 key)).length = 40 := by
    rw [length_hexEncode, h20]
  have hhex : ∀ c ∈ hexEncode (sha1 key), c ∈ hexDigits :=
    mem_hexEncode (sha1 key) hby
  have hsegstruct : hashSegments (hexEncode (sha1 key)) =
      (List.range 6).map
        (fun i => ((hexEncode (sha1 key)).drop (i * 6)).take 6) := by
    simp [hashSegments, hlen40, segmentSize]
  have hseglen : (hashSegments (hexEncode (sha1 key))).length = 6 := by
    rw [hsegstruct]; simp
  have hsegprops : ∀ s ∈ hashSegments (hexEncode (sha1 key)),
      s.length = 6 ∧ s ≠ [] ∧ ∀ c ∈ s, c ∈ hexDigits := by
    intro s hs
    rw [hsegstruct] at hs
    rcases List.mem_map.mp hs with ⟨i, hi, rfl⟩
    have hi6 : i < 6 := List.mem_range.mp hi
    have hlseg :
        (((hexEncode (sha1 key)).drop (i * 6)).take 6).length = 6 := by
      simp only [List.length_take, List.length_drop, hlen40]
      omega
    refine ⟨hlseg, ?_, ?_⟩
    · intro hnil; rw [hnil] at hlseg; simp at hlseg
    · intro c hc
      exact hhex c (List.mem_of_mem_drop (List.mem_of_mem_take hc))
  have hjoin : (hashSegments (hexEncode (sha1 key))).flatten =
      (hexEncode (sha1 key)).take 36 := by
    rw [hsegstruct, join_segments]
  refine ⟨fun key2 h => by rw [h], rfl, hlen40, hhex, rfl, hseglen,
    hsegprops, hjoin, ?_⟩
  intro c hc
  simp only [HashPathBuilder, FileIdentifier.BuildFilePath,
    List.mem_append, List.mem_cons] at hc
  rcases hc with h | h | h
  · rcases mem_joinSlash _ c h with ⟨s, hs, hcs⟩ | h
    · exact .inl ((hsegprops s hs).2.2 c hcs)
    · exact .inr h
  · exact .inr h
  · exact .inl (hhex c h)

/-- Concrete digest function for the C9 witness: the bytes 0..19. -/
def sha1W : Bytes → Bytes := fun _ => List.range 20

/-- C9 witness: the path-builder properties at a concrete digest. -/
theorem c9_hash_path_builder_witness :
    (∀ key2, key2 = ([] : Key) →
        HashPathBuilder sha1W key2 = HashPathBuilder sha1W []) ∧
    (HashPathBuilder sha1W []).FileName = hexEncode (sha1W []) ∧
    (HashPathBuilder sha1W []).FileName.length = 40 ∧
    (∀ c ∈ (HashPathBuilder sha1W []).FileName, c ∈ hexDigits) ∧
    (HashPathBuilder sha1W []).PathName =
      joinSlash (hashSegments (hexEncode (sha1W []))) ∧
    (hashSegments (hexEncode (sha1W []))).length = 6 ∧
    (∀ s ∈ hashSegments (hexEncode (sha1W [])),
        s.length = 6 ∧ s ≠ [] ∧ ∀ c ∈ s, c ∈ hexDigits) ∧
    (hashSegments (hexEncode (sha1W []))).flatten =
      (HashPathBuilder sha1W []).FileName.take 36 ∧
    (∀ c ∈ (HashPathBuilder sha1W []).BuildFilePath,
        c ∈ hexDigits ∨ c = '/') :=
  c9_hash_path_builder sha1W [] (by decide) (by decide)

/-- C6 witness: the amended broadcast semantics at a concrete failing
peer list, with the Store call forwarding the error. -/
theorem c6_broadcast_all_or_error_witness :
    (broadcast [{ tagOk := false, payloadOk := true }] = .ok () ↔
      ∀ p ∈ [({ tagOk := false, payloadOk := true } : PeerSend)],
        p.tagOk = true ∧ p.payloadOk = true) ∧
    (broadcast [{ tagOk := false, payloadOk := true }] = .error .sendErr →
      FileServer.Store cfgW EW kW fsEmpty [5] [9] ivW ivW2
        [{ tagOk := false, payloadOk := true }] = .error .sendErr) :=
  c6_broadcast_all_or_error [{ tagOk := false, payloadOk := true }]
    cfgW EW kW fsEmpty [5] [9] ivW ivW2 .sendErr (by decide)
